import Mathlib

/-!
Shallow embedding of the encryption-configuration sequencer and the
randomized permutation generator of the apsw-sqlite3mc ancillary scripts.

* `apply_encryption` embeds `apply_encryption` from `src/apsw/tests/mctests.py`
  (lines 270-319).
* `apply_key` embeds `apply_key` from `src/apsw/mctests.py` (lines 82-110).
* `permutations` / `genPerm` embed the generator from `src/apsw/mcall.py`
  (lines 17-94).

The external database engine is modelled as an oracle `Nat → Reply`: the
`k`-th engine call (pragma invocation) made by the embedded code receives
reply `oracle k`, which is either an echoed string or one of the engine's
distinguished failure kinds.  Every embedded function also returns the
trace of engine calls it performed (pragma name and optional argument), so
that "performs zero engine calls" is a statement about the trace.
-/

/-- A Python value passed as a pragma argument: an integer or a string.
`str(value)` is modelled by `Value.toStr`. -/
inductive Value where
  | int (n : Int)
  | str (s : String)
deriving DecidableEq, Repr

/-- Python `str(value)` for the values used by the scripts. -/
def Value.toStr : Value → String
  | .int n => toString n
  | .str s => s

/-- Failure kinds raised by the external engine (apsw exception classes). -/
inductive EngineErr where
  | busy
  | notADB
  | readOnly
  | sqlError (msg : String)
deriving DecidableEq, Repr

/-- Reply of one engine call: an echoed string, or a raised engine error. -/
inductive Reply where
  | echo (s : String)
  | err (e : EngineErr)
deriving DecidableEq, Repr

/-- Errors raised by the embedded Python functions, following the spec's
taxonomy (§7): `transactionInProgress` is the exception raised when the
handle is inside a transaction, `invalidRequest` the `ValueError` for a
malformed request, `configurationFailed` the `ValueError` naming the
pragma whose echo mismatched, `unsupported` the `CantOpenError` when
encryption is not compiled in, and `engine` a propagated engine error
(`engine .notADB` is the spec's `WrongKeyError`). -/
inductive McError where
  | transactionInProgress (msg : String)
  | invalidRequest (msg : String)
  | configurationFailed (pragma : String)
  | unsupported (msg : String)
  | engine (e : EngineErr)
deriving DecidableEq, Repr

/-- A database handle, exposing only what the scripts consult directly. -/
structure Handle where
  in_transaction : Bool
deriving DecidableEq, Repr

instance {ε α : Type} [DecidableEq ε] [DecidableEq α] : DecidableEq (Except ε α) := fun a b =>
  match a, b with
  | .ok x, .ok y =>
    if h : x = y then .isTrue (congrArg Except.ok h)
    else .isFalse (fun hh => h (Except.ok.inj hh))
  | .error x, .error y =>
    if h : x = y then .isTrue (congrArg Except.error h)
    else .isFalse (fun hh => h (Except.error.inj hh))
  | .ok _, .error _ => .isFalse (fun hh => Except.noConfusion hh)
  | .error _, .ok _ => .isFalse (fun hh => Except.noConfusion hh)

/-- Python `str.lower` (the names involved are ASCII). -/
def lowerStr (s : String) : String := ⟨s.data.map Char.toLower⟩

/-- Does `needle` occur as a leading segment of `hay`? -/
def charsStart : List Char → List Char → Bool
  | [], _ => true
  | _ :: _, [] => false
  | c :: cs, d :: ds => c == d && charsStart cs ds

/-- Does `needle` occur as a contiguous segment of `hay`?
Embeds Python's `needle in hay` on strings (via their character lists). -/
def charsContain (needle : List Char) : List Char → Bool
  | [] => needle.isEmpty
  | d :: ds => charsStart needle (d :: ds) || charsContain needle ds

/-- Python `"legacy" in pragma`. -/
def containsLegacy (s : String) : Bool :=
  charsContain "legacy".toList s.toList

/-- Membership in the set literal `{"key", "hexkey", "rekey", "hexrekey"}`
of line 290: the four mutually exclusive key directives. -/
def isKeyName (s : String) : Bool :=
  s == "key" || s == "hexkey" || s == "rekey" || s == "hexrekey"

/-- `pragma_order` from `src/apsw/tests/mctests.py` lines 277-293: the
ordering rank of one `(name, value)` option. -/
def pragma_order (item : String × Value) : Nat :=
  let pragma := lowerStr item.1
  if pragma == "cipher" then 1
  else if pragma == "legacy" then 2
  else if containsLegacy pragma then 3
  else if !(isKeyName pragma) then 3
  else 100

/-- Number of key directives in the request, counted exactly as the code
does: options whose `pragma_order` is 100 (line 296). -/
def keyCount (kwargs : List (String × Value)) : Nat :=
  kwargs.countP (fun it => pragma_order it == 100)

/-- Stable insertion into a list: `a` goes before the first element `b`
with `le a b`.  Together with `insertionSort` this models Python's stable
`sorted(..., key=pragma_order)`. -/
def orderedInsert (le : α → α → Bool) (a : α) : List α → List α
  | [] => [a]
  | b :: l => if le a b then a :: b :: l else b :: orderedInsert le a l

/-- Stable insertion sort, the model of Python's `sorted`. -/
def insertionSort (le : α → α → Bool) : List α → List α
  | [] => []
  | a :: l => orderedInsert le a (insertionSort le l)

/-- Boolean comparison by ordering rank. -/
def ordLe (a b : String × Value) : Bool :=
  Nat.ble (pragma_order a) (pragma_order b)

/-- `sorted(kwargs.items(), key=pragma_order)` (line 299). -/
def sortedOptions (kwargs : List (String × Value)) : List (String × Value) :=
  insertionSort ordLe kwargs

/-- The expected echo of one option (line 302): `"ok"` for a key
directive, `str(value)` otherwise. -/
def expectedEcho (pv : String × Value) : String :=
  if pragma_order pv == 100 then "ok" else pv.2.toStr

/-- An engine call as recorded in the trace: pragma name, and the argument
for a setting call (`none` for a pure read). -/
def toCall (pv : String × Value) : String × Option Value := (pv.1, some pv.2)

/-- The application loop of `apply_encryption` (lines 299-304): apply each
option in order, checking the echo; stop at the first engine error or echo
mismatch.  Returns the index of the next engine call on success, and the
trace of calls made. -/
def applyOpts (oracle : Nat → Reply) : Nat → List (String × Value) →
    Except McError Nat × List (String × Option Value)
  | i, [] => (.ok i, [])
  | i, (p, v) :: rest =>
    match oracle i with
    | .err e => (.error (.engine e), [(p, some v)])
    | .echo s =>
      if s ≠ expectedEcho (p, v) then
        (.error (.configurationFailed p), [(p, some v)])
      else
        let r := applyOpts oracle (i + 1) rest
        (r.1, (p, some v) :: r.2)

/-- `apply_encryption` from `src/apsw/tests/mctests.py` lines 270-319.
After the option loop: a canary read of `user_version` (line 309, errors
propagate), then inside a transaction a read and a re-apply of
`user_version` (lines 311-316) whose `ReadOnlyError` is swallowed
(lines 317-319). -/
def apply_encryption (db : Handle) (kwargs : List (String × Value))
    (oracle : Nat → Reply) :
    Except McError Unit × List (String × Option Value) :=
  if db.in_transaction then
    (.error (.transactionInProgress "Won't update encryption while in a transaction"), [])
  else if keyCount kwargs ≠ 1 then
    (.error (.invalidRequest "Exactly one key must be provided"), [])
  else
    match applyOpts oracle 0 (sortedOptions kwargs) with
    | (.error e, tr) => (.error e, tr)
    | (.ok i, tr) =>
      match oracle i with
      | .err e => (.error (.engine e), tr ++ [("user_version", none)])
      | .echo _ =>
        match oracle (i + 1) with
        | .err .readOnly => (.ok (), tr ++ [("user_version", none), ("user_version", none)])
        | .err e => (.error (.engine e), tr ++ [("user_version", none), ("user_version", none)])
        | .echo v =>
          match oracle (i + 2) with
          | .err .readOnly =>
            (.ok (), tr ++ [("user_version", none), ("user_version", none), ("user_version", some (.str v))])
          | .err e =>
            (.error (.engine e), tr ++ [("user_version", none), ("user_version", none), ("user_version", some (.str v))])
          | .echo _ =>
            (.ok (), tr ++ [("user_version", none), ("user_version", none), ("user_version", some (.str v))])

/-- One iteration of the retry loop of `apply_key` (`src/apsw/mctests.py`
lines 91-110), fuelled.  Each iteration performs a canary read of
`user_version` and, if that echoes, a transactional re-apply of the read
value; `BusyError` from either call causes a sleep and an unconditional
retry (one unit of fuel), `NotADBError` yields `false` (wrong key), any
other engine error propagates, and full success yields `true`.  `none`
means the fuel ran out while the engine kept reporting busy: the real
loop is still running. -/
def apply_key_loop (oracle : Nat → Reply) :
    Nat → Nat → Option (Except McError Bool × List (String × Option Value))
  | 0, _ => none
  | fuel + 1, i =>
    match oracle i with
    | .err .busy =>
      (apply_key_loop oracle fuel (i + 1)).map
        (fun r => (r.1, ("user_version", none) :: r.2))
    | .err .notADB => some (.ok false, [("user_version", none)])
    | .err e => some (.error (.engine e), [("user_version", none)])
    | .echo v =>
      match oracle (i + 1) with
      | .err .busy =>
        (apply_key_loop oracle fuel (i + 2)).map
          (fun r => (r.1, ("user_version", none) :: ("user_version", some (.str v)) :: r.2))
      | .err .notADB =>
        some (.ok false, [("user_version", none), ("user_version", some (.str v))])
      | .err e =>
        some (.error (.engine e), [("user_version", none), ("user_version", some (.str v))])
      | .echo _ =>
        some (.ok true, [("user_version", none), ("user_version", some (.str v))])

/-- `apply_key` from `src/apsw/mctests.py` lines 82-110: refuse inside a
transaction, apply the `key` pragma (echo must be `"ok"`, else encryption
is not compiled in), then run the fuelled canary retry loop. -/
def apply_key (db : Handle) (key : Value) (oracle : Nat → Reply) (fuel : Nat) :
    Option (Except McError Bool × List (String × Option Value)) :=
  if db.in_transaction then
    some (.error (.transactionInProgress "Won't set key while in a transaction"), [])
  else
    match oracle 0 with
    | .err e => some (.error (.engine e), [("key", some key)])
    | .echo s =>
      if s ≠ "ok" then
        some (.error (.unsupported "SQLite library does not implement encryption"), [("key", some key)])
      else
        (apply_key_loop oracle fuel 1).map
          (fun r => (r.1, ("key", some key) :: r.2))

/-! ### The permutation generator of `src/apsw/mcall.py` -/

/-- Domain of one cipher parameter: a discrete set of legal values
(stored sorted ascending, as `random.choice(sorted(valid))` consumes it)
or an inclusive integer range. -/
inductive Domain where
  | dset (vals : List Int)
  | drange (lo hi : Int)
deriving DecidableEq, Repr

/-- `{2**i for i in range(9, 17)}`, sorted. -/
def legacyPageSizes : List Int :=
  [512, 1024, 2048, 4096, 8192, 16384, 32768, 65536]

/-- The static cipher/parameter table of `src/apsw/mcall.py` lines 17-51. -/
def ciphers : List (String × List (String × Domain)) :=
  [("aes128cbc",
    [("legacy", .dset [0, 1]),
     ("legacy_page_size", .dset legacyPageSizes)]),
   ("aes256cbc",
    [("kdf_iter", .drange 1 10000),
     ("legacy", .dset [0, 1]),
     ("legacy_page_size", .dset legacyPageSizes)]),
   ("chacha20",
    [("kdf_iter", .drange 1 10000),
     ("legacy", .dset [0, 1]),
     ("legacy_page_size", .dset legacyPageSizes)]),
   ("sqlcipher",
    [("kdf_iter", .drange 1 10000),
     ("fast_kdf_iter", .drange 1 100),
     ("hmac_use", .dset [0, 1]),
     ("hmac_pgno", .dset [0, 1, 2]),
     ("hmac_salt_mask", .drange 0 256),
     ("legacy", .drange 0 4),
     ("legacy_page_size", .dset legacyPageSizes),
     ("kdf_algorithm", .drange 0 2),
     ("hmac_algorithm", .drange 0 2),
     ("plaintext_header_size", .dset [0, 16, 32, 48, 64, 80, 96])]),
   ("rc4",
    [("legacy", .dset [1]),
     ("legacy_page_size", .dset legacyPageSizes)]),
   ("ascon128",
    [("kdf_iter", .drange 1 10000)])]

/-- Association-list lookup, the model of Python `dict` indexing. -/
def lookupD : List (String × α) → String → Option α
  | [], _ => none
  | (n, v) :: rest, key => if key == n then some v else lookupD rest key

/-- `tuple(ciphers.keys())` in table order. -/
def cipherNames : List String := ciphers.map Prod.fst

/-- The parameter table of one cipher (`ciphers[cipher]`). -/
def cipherParams (cipher : String) : List (String × Domain) :=
  (lookupD ciphers cipher).getD []

/-- Lexicographic order on character lists. -/
def charsLe : List Char → List Char → Bool
  | [], _ => true
  | _ :: _, [] => false
  | c :: cs, d :: ds => if c == d then charsLe cs ds else decide (c < d)

/-- Boolean string order used to model Python `sorted` on strings. -/
def strLe (a b : String) : Bool := charsLe a.data b.data

/-- Deduplication (keeping first occurrences), modelling the set union. -/
def dedupStr : List String → List String
  | [] => []
  | a :: l => a :: (dedupStr l).filter (fun b => !(a == b))

/-- `sorted(all_params)`: the sorted union of all parameter names across
all ciphers (lines 53-57 and the `sorted` at line 85). -/
def all_params : List String :=
  insertionSort strLe (dedupStr ((ciphers.map (fun c => c.2.map Prod.fst)).flatten))

/-- The seedable pseudo-random source: a stream of naturals and a cursor.
Each primitive draw consumes one stream element. -/
structure RNG where
  f : Nat → Nat
  i : Nat

/-- Draw one natural from the source. -/
def RNG.next (r : RNG) : Nat × RNG := (r.f r.i, ⟨r.f, r.i + 1⟩)

/-- `random.choice(l)`: draw an index into `l`. -/
def chooseFrom (l : List α) (dflt : α) (r : RNG) : α × RNG :=
  let n := r.next
  (l.getD (n.1 % l.length) dflt, n.2)

/-- `random.randint(lo, hi)` (inclusive bounds). -/
def randintM (lo hi : Int) (r : RNG) : Int × RNG :=
  let n := r.next
  (lo + (n.1 : Int) % (hi - lo + 1), n.2)

/-- One emitted permutation: cipher name, "good" pairs (in-domain,
applicable) and "bad" pairs (inapplicable, placeholder value 0). -/
structure Permutation where
  cipher : String
  good : List (String × Int)
  bad : List (String × Int)
deriving DecidableEq, Repr

/-- The parameter-drawing loop of `permutations` (lines 84-93): `k` draws
from `sorted(all_params)`; names not accepted by the chosen cipher become
bad pairs with value 0; accepted names get a value drawn from their
domain (a member of the sorted discrete set, or `randint` over the
range). -/
def genParams (cipher : String) : Nat → RNG →
    List (String × Int) × List (String × Int) × RNG
  | 0, r => ([], [], r)
  | k + 1, r =>
    let c := chooseFrom all_params "" r
    match lookupD (cipherParams cipher) c.1 with
    | none =>
      let rest := genParams cipher k c.2
      (rest.1, (c.1, 0) :: rest.2.1, rest.2.2)
    | some (.dset vals) =>
      let v := chooseFrom vals 0 c.2
      let rest := genParams cipher k v.2
      ((c.1, v.1) :: rest.1, rest.2.1, rest.2.2)
    | some (.drange lo hi) =>
      let v := randintM lo hi c.2
      let rest := genParams cipher k v.2
      ((c.1, v.1) :: rest.1, rest.2.1, rest.2.2)

/-- One step of `permutations()` (lines 80-94): choose a cipher uniformly
from the table, a count `k` in `[0, 4)`, then draw `k` parameters. -/
def genPerm (r : RNG) : Permutation × RNG :=
  let c := chooseFrom cipherNames "" r
  let k := c.2.next
  let rest := genParams c.1 (k.1 % 4) k.2
  (⟨c.1, rest.1, rest.2.1⟩, rest.2.2)

/-- The first `n` permutations produced from source state `r`: the lazy
generator `permutations()` observed for `n` steps. -/
def permRun : RNG → Nat → List Permutation
  | _, 0 => []
  | r, n + 1 =>
    let p := genPerm r
    p.1 :: permRun p.2 n

/-- Membership of a value in a parameter domain. -/
def inDomainB (v : Int) : Domain → Bool
  | .dset vals => decide (v ∈ vals)
  | .drange lo hi => decide (lo ≤ v) && decide (v ≤ hi)

/-- Well-formedness of a domain: non-empty set, ordered range bounds. -/
def domWFB : Domain → Bool
  | .dset vals => !vals.isEmpty
  | .drange lo hi => decide (lo ≤ hi)

/-- Default element used with `List.getD` when indexing option lists. -/
def dfltPV : String × Value := ("", .int 0)

/-! ### Lemmas about the stable insertion sort -/

theorem sublist_orderedInsert (le : α → α → Bool) (a : α) :
    ∀ l : List α, l.Sublist (orderedInsert le a l)
  | [] => List.nil_sublist _
  | b :: l => by
    rw [orderedInsert]
    by_cases h : le a b = true
    · rw [if_pos h]
      exact List.Sublist.cons a (List.Sublist.refl _)
    · rw [if_neg h]
      exact List.Sublist.cons₂ b (sublist_orderedInsert le a l)

theorem mem_orderedInsert (le : α → α → Bool) (a b : α) :
    ∀ l : List α, b ∈ orderedInsert le a l ↔ b = a ∨ b ∈ l
  | [] => by simp [orderedInsert]
  | c :: l => by
    rw [orderedInsert]
    by_cases h : le a c = true
    · rw [if_pos h]
      simp [List.mem_cons]
    · rw [if_neg h]
      simp only [List.mem_cons, mem_orderedInsert le a b l]
      tauto

theorem mem_insertionSort (le : α → α → Bool) (b : α) :
    ∀ l : List α, b ∈ insertionSort le l ↔ b ∈ l
  | [] => Iff.rfl
  | a :: l => by
    rw [insertionSort, mem_orderedInsert, mem_insertionSort le b l, List.mem_cons]

theorem length_orderedInsert (le : α → α → Bool) (a : α) :
    ∀ l : List α, (orderedInsert le a l).length = l.length + 1
  | [] => rfl
  | b :: l => by
    rw [orderedInsert]
    by_cases h : le a b = true
    · rw [if_pos h]
      rfl
    · rw [if_neg h]
      simp [length_orderedInsert le a l]

theorem length_insertionSort (le : α → α → Bool) :
    ∀ l : List α, (insertionSort le l).length = l.length
  | [] => rfl
  | a :: l => by
    rw [insertionSort, length_orderedInsert, length_insertionSort le l]
    rfl

theorem pairwise_orderedInsert (le : α → α → Bool)
    (htrans : ∀ x y z, le x y = true → le y z = true → le x z = true)
    (htot : ∀ x y, le x y = true ∨ le y x = true) (a : α) :
    ∀ l : List α, l.Pairwise (fun x y => le x y = true) →
      (orderedInsert le a l).Pairwise (fun x y => le x y = true)
  | [], _ => by simp [orderedInsert]
  | b :: l, h => by
    rw [orderedInsert]
    rcases List.pairwise_cons.mp h with ⟨hb, hl⟩
    by_cases hab : le a b = true
    · rw [if_pos hab]
      refine List.pairwise_cons.mpr ⟨?_, h⟩
      intro x hx
      rcases List.mem_cons.mp hx with hx | hx
      · exact hx ▸ hab
      · exact htrans a b x hab (hb x hx)
    · rw [if_neg hab]
      refine List.pairwise_cons.mpr ⟨?_, pairwise_orderedInsert le htrans htot a l hl⟩
      intro x hx
      rcases (mem_orderedInsert le a x l).mp hx with hx | hx
      · rw [hx]
        rcases htot a b with hh | hh
        · exact absurd hh hab
        · exact hh
      · exact hb x hx

theorem pairwise_insertionSort (le : α → α → Bool)
    (htrans : ∀ x y z, le x y = true → le y z = true → le x z = true)
    (htot : ∀ x y, le x y = true ∨ le y x = true) :
    ∀ l : List α, (insertionSort le l).Pairwise (fun x y => le x y = true)
  | [] => List.Pairwise.nil
  | a :: l => by
    rw [insertionSort]
    exact pairwise_orderedInsert le htrans htot a _ (pairwise_insertionSort le htrans htot l)

theorem pair_sublist_orderedInsert (le : α → α → Bool) (x y : α) (hxy : le x y = true) :
    ∀ l : List α, y ∈ l → [x, y].Sublist (orderedInsert le x l)
  | [], h => absurd h (List.not_mem_nil y)
  | b :: l, h => by
    rw [orderedInsert]
    by_cases hb : le x b = true
    · rw [if_pos hb]
      exact List.Sublist.cons₂ x (List.singleton_sublist.mpr h)
    · rw [if_neg hb]
      rcases List.mem_cons.mp h with h1 | h1
      · exact absurd (h1 ▸ hxy) hb
      · exact List.Sublist.cons b (pair_sublist_orderedInsert le x y hxy l h1)

theorem pair_sublist_insertionSort (le : α → α → Bool) (x y : α) (hxy : le x y = true) :
    ∀ l : List α, [x, y].Sublist l → [x, y].Sublist (insertionSort le l)
  | [], h => by cases h
  | a :: l, h => by
    rw [insertionSort]
    cases h with
    | cons _ h' =>
      exact (pair_sublist_insertionSort le x y hxy l h').trans (sublist_orderedInsert le a _)
    | cons₂ _ h' =>
      exact pair_sublist_orderedInsert le x y hxy _
        ((mem_insertionSort le y l).mpr (List.singleton_sublist.mp h'))

theorem ordLe_trans : ∀ x y z, ordLe x y = true → ordLe y z = true → ordLe x z = true := by
  intro x y z h1 h2
  simp only [ordLe, Nat.ble_eq] at *
  omega

theorem ordLe_total : ∀ x y, ordLe x y = true ∨ ordLe y x = true := by
  intro x y
  simp only [ordLe, Nat.ble_eq]
  omega

theorem sortedOptions_pairwise (kwargs : List (String × Value)) :
    (sortedOptions kwargs).Pairwise (fun x y => ordLe x y = true) :=
  pairwise_insertionSort ordLe ordLe_trans ordLe_total kwargs

theorem length_sortedOptions (kwargs : List (String × Value)) :
    (sortedOptions kwargs).length = kwargs.length :=
  length_insertionSort ordLe kwargs

theorem sortedOptions_rank_mono (kwargs : List (String × Value)) (i j : Nat)
    (hi : i < kwargs.length) (hj : j < kwargs.length) (hij : i ≤ j) :
    pragma_order ((sortedOptions kwargs).getD i dfltPV) ≤
      pragma_order ((sortedOptions kwargs).getD j dfltPV) := by
  have hi' : i < (sortedOptions kwargs).length := by rw [length_sortedOptions]; exact hi
  have hj' : j < (sortedOptions kwargs).length := by rw [length_sortedOptions]; exact hj
  rcases Nat.lt_or_ge i j with hlt | hge
  · have hp := List.pairwise_iff_getElem.mp (sortedOptions_pairwise kwargs) i j hi' hj' hlt
    rw [List.getD_eq_getElem _ _ hi', List.getD_eq_getElem _ _ hj']
    simpa [ordLe, Nat.ble_eq] using hp
  · have : i = j := Nat.le_antisymm hij hge
    subst this
    exact Nat.le_refl _

/-! ### Lemmas about the ordering rank -/

theorem pragma_order_of_cipher (n : String) (v : Value) (h : lowerStr n = "cipher") :
    pragma_order (n, v) = 1 := by
  simp only [pragma_order]
  rw [h]
  decide

theorem pragma_order_of_legacy (n : String) (v : Value) (h : lowerStr n = "legacy") :
    pragma_order (n, v) = 2 := by
  simp only [pragma_order]
  rw [h]
  decide

theorem pragma_order_of_contains (n : String) (v : Value)
    (h1 : containsLegacy (lowerStr n) = true) (h2 : lowerStr n ≠ "legacy") :
    pragma_order (n, v) = 3 := by
  have hc : lowerStr n ≠ "cipher" := by
    intro hq
    rw [hq] at h1
    exact absurd h1 (by decide)
  simp only [pragma_order]
  rw [if_neg (by simpa using hc), if_neg (by simpa using h2), if_pos h1]

theorem pragma_order_of_other (n : String) (v : Value)
    (h1 : lowerStr n ≠ "cipher") (h2 : containsLegacy (lowerStr n) = false)
    (h3 : isKeyName (lowerStr n) = false) :
    pragma_order (n, v) = 3 := by
  have hl : lowerStr n ≠ "legacy" := by
    intro hq
    rw [hq] at h2
    exact absurd h2 (by decide)
  simp only [pragma_order]
  rw [if_neg (by simpa using h1), if_neg (by simpa using hl), if_neg (by simp [h2]),
    if_pos (by simp [h3])]

theorem pragma_order_of_key (n : String) (v : Value) (h : isKeyName (lowerStr n) = true) :
    pragma_order (n, v) = 100 := by
  simp only [isKeyName, Bool.or_eq_true, beq_iff_eq] at h
  rcases h with ((h | h) | h) | h <;>
    · simp only [pragma_order]
      rw [h]
      decide

theorem pragma_order_eq_100_iff (it : String × Value) :
    (pragma_order it == 100) = isKeyName (lowerStr it.1) := by
  obtain ⟨n, v⟩ := it
  by_cases hk : isKeyName (lowerStr n) = true
  · rw [hk, pragma_order_of_key n v hk]
    rfl
  · rw [Bool.not_eq_true] at hk
    rw [hk]
    by_cases hc : lowerStr n = "cipher"
    · rw [pragma_order_of_cipher n v hc]
      rfl
    · by_cases hl : lowerStr n = "legacy"
      · rw [pragma_order_of_legacy n v hl]
        rfl
      · by_cases hg : containsLegacy (lowerStr n) = true
        · rw [pragma_order_of_contains n v hg hl]
          rfl
        · rw [Bool.not_eq_true] at hg
          rw [pragma_order_of_other n v hc hg hk]
          rfl

/-! ### Lemmas about the application loop -/

theorem applyOpts_nil (oracle : Nat → Reply) (i : Nat) :
    applyOpts oracle i [] = (.ok i, []) := rfl

theorem applyOpts_cons_err (oracle : Nat → Reply) (i : Nat) (p : String) (v : Value)
    (rest : List (String × Value)) (e : EngineErr) (h : oracle i = .err e) :
    applyOpts oracle i ((p, v) :: rest) = (.error (.engine e), [(p, some v)]) := by
  rw [applyOpts, h]

theorem applyOpts_cons_echo (oracle : Nat → Reply) (i : Nat) (p : String) (v : Value)
    (rest : List (String × Value)) (s : String) (h : oracle i = .echo s) :
    applyOpts oracle i ((p, v) :: rest) =
      if s ≠ expectedEcho (p, v) then (.error (.configurationFailed p), [(p, some v)])
      else ((applyOpts oracle (i + 1) rest).1, (p, some v) :: (applyOpts oracle (i + 1) rest).2) := by
  rw [applyOpts, h]

theorem applyOpts_all_ok (oracle : Nat → Reply) :
    ∀ (l : List (String × Value)) (i : Nat),
      (∀ k, k < l.length → oracle (i + k) = .echo (expectedEcho (l.getD k dfltPV))) →
      applyOpts oracle i l = (.ok (i + l.length), l.map toCall)
  | [], i, _ => by simp [applyOpts_nil]
  | (p, v) :: rest, i, h => by
    have h0 := h 0 (Nat.succ_pos _)
    rw [Nat.add_zero, List.getD_cons_zero] at h0
    have ht : ∀ k, k < rest.length → oracle (i + 1 + k) = .echo (expectedEcho (rest.getD k dfltPV)) := by
      intro k hk
      have hh := h (k + 1) (Nat.succ_lt_succ hk)
      rw [List.getD_cons_succ] at hh
      have harith : i + (k + 1) = i + 1 + k := by omega
      rw [harith] at hh
      exact hh
    rw [applyOpts_cons_echo oracle i p v rest _ h0, if_neg (by simp),
      applyOpts_all_ok oracle rest (i + 1) ht]
    have harith : i + 1 + rest.length = i + ((p, v) :: rest).length := by
      simp only [List.length_cons]
      omega
    rw [harith]
    rfl

theorem applyOpts_fail_at (oracle : Nat → Reply) (p : String) (v : Value)
    (l₂ : List (String × Value)) (s : String) (hs : s ≠ expectedEcho (p, v)) :
    ∀ (l₁ : List (String × Value)) (i : Nat),
      (∀ k, k < l₁.length → oracle (i + k) = .echo (expectedEcho (l₁.getD k dfltPV))) →
      oracle (i + l₁.length) = .echo s →
      applyOpts oracle i (l₁ ++ (p, v) :: l₂) =
        (.error (.configurationFailed p), l₁.map toCall ++ [(p, some v)])
  | [], i, _, hmis => by
    simp only [List.length_nil, Nat.add_zero] at hmis
    rw [List.nil_append, applyOpts_cons_echo oracle i p v l₂ s hmis, if_pos hs]
    rfl
  | (q, w) :: rest, i, h, hmis => by
    have h0 := h 0 (Nat.succ_pos _)
    rw [Nat.add_zero, List.getD_cons_zero] at h0
    have ht : ∀ k, k < rest.length → oracle (i + 1 + k) = .echo (expectedEcho (rest.getD k dfltPV)) := by
      intro k hk
      have hh := h (k + 1) (Nat.succ_lt_succ hk)
      rw [List.getD_cons_succ] at hh
      have harith : i + (k + 1) = i + 1 + k := by omega
      rw [harith] at hh
      exact hh
    have hmis2 : oracle (i + 1 + rest.length) = .echo s := by
      have harith : i + ((q, w) :: rest).length = i + 1 + rest.length := by
        simp only [List.length_cons]
        omega
      rw [harith] at hmis
      exact hmis
    rw [List.cons_append, applyOpts_cons_echo oracle i q w _ _ h0, if_neg (by simp),
      applyOpts_fail_at oracle p v l₂ s hs rest (i + 1) ht hmis2]
    rfl

/-- `applyOpts` from call index 0 when every option echoes as expected. -/
theorem applyOpts_all_ok0 (oracle : Nat → Reply) (l : List (String × Value))
    (he : ∀ k, k < l.length → oracle k = .echo (expectedEcho (l.getD k dfltPV))) :
    applyOpts oracle 0 l = (.ok l.length, l.map toCall) := by
  have h := applyOpts_all_ok oracle l 0 (by
    intro k hk
    rw [Nat.zero_add]
    exact he k hk)
  rwa [Nat.zero_add] at h

/-- Master unfolding of `apply_encryption` on a run where the handle is
not in a transaction, exactly one key directive is present, and every
option echoes its expected value: what remains is the canary phase. -/
theorem apply_encryption_after_opts (db : Handle) (kwargs : List (String × Value))
    (oracle : Nat → Reply) (hdb : db.in_transaction = false) (hk : keyCount kwargs = 1)
    (he : ∀ k, k < (sortedOptions kwargs).length →
      oracle k = .echo (expectedEcho ((sortedOptions kwargs).getD k dfltPV))) :
    apply_encryption db kwargs oracle =
      (match oracle (sortedOptions kwargs).length with
       | .err e =>
         (.error (.engine e), (sortedOptions kwargs).map toCall ++ [("user_version", none)])
       | .echo _ =>
         match oracle ((sortedOptions kwargs).length + 1) with
         | .err .readOnly =>
           (.ok (), (sortedOptions kwargs).map toCall ++
             [("user_version", none), ("user_version", none)])
         | .err e =>
           (.error (.engine e), (sortedOptions kwargs).map toCall ++
             [("user_version", none), ("user_version", none)])
         | .echo v =>
           match oracle ((sortedOptions kwargs).length + 2) with
           | .err .readOnly =>
             (.ok (), (sortedOptions kwargs).map toCall ++
               [("user_version", none), ("user_version", none), ("user_version", some (.str v))])
           | .err e =>
             (.error (.engine e), (sortedOptions kwargs).map toCall ++
               [("user_version", none), ("user_version", none), ("user_version", some (.str v))])
           | .echo _ =>
             (.ok (), (sortedOptions kwargs).map toCall ++
               [("user_version", none), ("user_version", none), ("user_version", some (.str v))])) := by
  unfold apply_encryption
  rw [hdb, hk]
  rw [if_neg (by simp), if_neg (by simp)]
  rw [applyOpts_all_ok0 oracle _ he]

/-- On such a run the trace starts with the sorted options, whatever the
canary phase replies. -/
theorem apply_encryption_goodrun_trace (db : Handle) (kwargs : List (String × Value))
    (oracle : Nat → Reply) (hdb : db.in_transaction = false) (hk : keyCount kwargs = 1)
    (he : ∀ k, k < (sortedOptions kwargs).length →
      oracle k = .echo (expectedEcho ((sortedOptions kwargs).getD k dfltPV))) :
    ∃ suffix, (apply_encryption db kwargs oracle).2 =
      (sortedOptions kwargs).map toCall ++ suffix := by
  rw [apply_encryption_after_opts db kwargs oracle hdb hk he]
  rcases oracle (sortedOptions kwargs).length with s1 | e1
  · rcases oracle ((sortedOptions kwargs).length + 1) with s2 | e2
    · rcases oracle ((sortedOptions kwargs).length + 2) with s3 | e3
      · exact ⟨_, rfl⟩
      · cases e3 <;> exact ⟨_, rfl⟩
    · cases e2 <;> exact ⟨_, rfl⟩
  · exact ⟨_, rfl⟩

/-! ### Lemmas about the key-verification retry loop -/

theorem apply_key_loop_busy (oracle : Nat → Reply) :
    ∀ (fuel i : Nat), (∀ j, i ≤ j → oracle j = .err .busy) →
      apply_key_loop oracle fuel i = none
  | 0, _, _ => rfl
  | fuel + 1, i, h => by
    have h0 := h i (Nat.le_refl i)
    have hrec := apply_key_loop_busy oracle fuel (i + 1) (fun j hj => h j (Nat.le_of_succ_le hj))
    simp only [apply_key_loop, h0, hrec, Option.map_none']

/-! ### Lemmas about the permutation generator -/

theorem lookupD_mem {α : Type} : ∀ (l : List (String × α)) (k : String) (v : α),
    lookupD l k = some v → v ∈ l.map Prod.snd
  | [], _, _, h => by simp [lookupD] at h
  | (n, w) :: rest, k, v, h => by
    rw [lookupD] at h
    by_cases hb : (k == n) = true
    · rw [if_pos hb] at h
      injection h with h
      rw [List.map_cons]
      exact h ▸ List.mem_cons_self _ _
    · rw [if_neg hb] at h
      exact List.mem_cons_of_mem _ (lookupD_mem rest k v h)

/-- Every domain in the static cipher table is well formed. -/
theorem ciphers_table_wf :
    ((ciphers.map (fun c => c.2.map Prod.snd)).flatten.all domWFB) = true := by decide

theorem cipherParams_wf (cipher p : String) (d : Domain)
    (h : lookupD (cipherParams cipher) p = some d) : domWFB d = true := by
  have hd : d ∈ (cipherParams cipher).map Prod.snd := lookupD_mem _ p d h
  rcases hcp : lookupD ciphers cipher with _ | ps
  · rw [cipherParams, hcp] at hd
    simp at hd
  · have hps : ps ∈ ciphers.map Prod.snd := lookupD_mem _ _ _ hcp
    rw [cipherParams, hcp, Option.getD_some] at hd
    have hmem : ps.map Prod.snd ∈ ciphers.map (fun c => c.2.map Prod.snd) := by
      rcases List.mem_map.mp hps with ⟨c, hc, hceq⟩
      exact List.mem_map.mpr ⟨c, hc, by rw [hceq]⟩
    have hflat : d ∈ (ciphers.map (fun c => c.2.map Prod.snd)).flatten :=
      List.mem_flatten.mpr ⟨ps.map Prod.snd, hmem, hd⟩
    exact List.all_eq_true.mp ciphers_table_wf d hflat

theorem chooseFrom_mem {α : Type} (l : List α) (dflt : α) (r : RNG) (hne : l ≠ []) :
    (chooseFrom l dflt r).1 ∈ l := by
  have hlen : 0 < l.length := List.length_pos.mpr hne
  have hidx : r.next.1 % l.length < l.length := Nat.mod_lt _ hlen
  have hch : (chooseFrom l dflt r).1 = l.getD (r.next.1 % l.length) dflt := rfl
  rw [hch, List.getD_eq_getElem l dflt hidx]
  exact List.getElem_mem hidx

theorem randintM_bounds (lo hi : Int) (r : RNG) (h : lo ≤ hi) :
    lo ≤ (randintM lo hi r).1 ∧ (randintM lo hi r).1 ≤ hi := by
  have hval : (randintM lo hi r).1 = lo + ((r.f r.i : Int) % (hi - lo + 1)) := rfl
  have h1 : 0 ≤ ((r.f r.i : Int) % (hi - lo + 1)) := Int.emod_nonneg _ (by omega)
  have h2 : ((r.f r.i : Int) % (hi - lo + 1)) < hi - lo + 1 :=
    Int.emod_lt_of_pos _ (by omega)
  rw [hval]
  omega

theorem genParams_spec (cipher : String) :
    ∀ (k : Nat) (r : RNG),
      (∀ pr, pr ∈ (genParams cipher k r).1 →
        ∃ d, lookupD (cipherParams cipher) pr.1 = some d ∧ inDomainB pr.2 d = true) ∧
      (∀ pr, pr ∈ (genParams cipher k r).2.1 →
        lookupD (cipherParams cipher) pr.1 = none ∧ pr.2 = 0) ∧
      (genParams cipher k r).1.length + (genParams cipher k r).2.1.length = k
  | 0, r => by
    refine ⟨?_, ?_, rfl⟩ <;> intro pr hpr <;> simp [genParams] at hpr
  | k + 1, r => by
    simp only [genParams]
    rcases hl : lookupD (cipherParams cipher) (chooseFrom all_params "" r).1 with _ | d
    · obtain ⟨ih1, ih2, ih3⟩ := genParams_spec cipher k (chooseFrom all_params "" r).2
      refine ⟨ih1, ?_, ?_⟩
      · intro pr hpr
        rcases List.mem_cons.mp hpr with hpr | hpr
        · subst hpr
          exact ⟨hl, rfl⟩
        · exact ih2 pr hpr
      · simp only [List.length_cons]
        omega
    · have hwf := cipherParams_wf cipher (chooseFrom all_params "" r).1 d hl
      cases d with
      | dset vals =>
        have hne : vals ≠ [] := by
          simp only [domWFB, Bool.not_eq_true'] at hwf
          exact fun hv => by simp [hv] at hwf
        obtain ⟨ih1, ih2, ih3⟩ :=
          genParams_spec cipher k (chooseFrom vals 0 (chooseFrom all_params "" r).2).2
        refine ⟨?_, ih2, ?_⟩
        · intro pr hpr
          rcases List.mem_cons.mp hpr with hpr | hpr
          · subst hpr
            refine ⟨.dset vals, hl, ?_⟩
            simp only [inDomainB, decide_eq_true_eq]
            exact chooseFrom_mem vals 0 _ hne
          · exact ih1 pr hpr
        · simp only [List.length_cons]
          omega
      | drange lo hi =>
        have hle : lo ≤ hi := by
          simpa [domWFB] using hwf
        obtain ⟨ih1, ih2, ih3⟩ :=
          genParams_spec cipher k (randintM lo hi (chooseFrom all_params "" r).2).2
        refine ⟨?_, ih2, ?_⟩
        · intro pr hpr
          rcases List.mem_cons.mp hpr with hpr | hpr
          · subst hpr
            refine ⟨.drange lo hi, hl, ?_⟩
            obtain ⟨hb1, hb2⟩ := randintM_bounds lo hi _ hle
            simp only [inDomainB, Bool.and_eq_true, decide_eq_true_eq]
            exact ⟨hb1, hb2⟩
          · exact ih1 pr hpr
        · simp only [List.length_cons]
          omega

theorem permRun_take : ∀ (n : Nat) (r : RNG) (m : Nat),
    (permRun r (n + m)).take n = permRun r n
  | 0, _, _ => rfl
  | n + 1, r, m => by
    have harith : n + 1 + m = (n + m) + 1 := by omega
    rw [harith]
    simp only [permRun, List.take_succ_cons]
    rw [permRun_take n _ m]

/-! ### Claim theorems -/

/-- C1: on a handle not inside a transaction, any request without exactly
one key directive (counted case-insensitively on the lower-cased name,
which is exactly rank 100 of `pragma_order`) makes `apply_encryption`
fail with `InvalidRequestError` carrying "Exactly one key must be
provided" and an empty engine-call trace; rank 100 coincides with
key-directive-ness of the lower-cased name, so `"key"` and `"KeY"`
collide and count as two. -/
theorem C1_invalid_key_count (db : Handle) (kwargs : List (String × Value))
    (oracle : Nat → Reply) (hdb : db.in_transaction = false) (hk : keyCount kwargs ≠ 1) :
    apply_encryption db kwargs oracle =
      (.error (.invalidRequest "Exactly one key must be provided"), []) ∧
    (∀ it : String × Value, (pragma_order it == 100) = isKeyName (lowerStr it.1)) ∧
    (∀ v w : Value, keyCount [("key", v), ("KeY", w)] = 2) := by
  refine ⟨?_, pragma_order_eq_100_iff, ?_⟩
  · unfold apply_encryption
    rw [hdb]
    rw [if_neg (by simp), if_pos hk]
  · intro v w
    rfl

/-- Witness for C1: a request with the two colliding key directives
`"key"` and `"KeY"`. -/
theorem C1_invalid_key_count_witness :
    apply_encryption ⟨false⟩ [("key", .str "123"), ("KeY", .str "123")] (fun _ => .echo "ok") =
      (.error (.invalidRequest "Exactly one key must be provided"), []) :=
  (C1_invalid_key_count ⟨false⟩ [("key", .str "123"), ("KeY", .str "123")]
    (fun _ => .echo "ok") rfl (by decide)).1

/-- C4: while `in_transaction` is true, `apply_encryption` and
`apply_key` both fail immediately with the transaction-in-progress error
and perform zero engine calls (empty trace). -/
theorem C4_transaction_guard (db db2 : Handle) (kwargs : List (String × Value))
    (key : Value) (oracle oracle2 : Nat → Reply) (fuel : Nat)
    (h1 : db.in_transaction = true) (h2 : db2.in_transaction = true) :
    apply_encryption db kwargs oracle =
      (.error (.transactionInProgress "Won't update encryption while in a transaction"), []) ∧
    apply_key db2 key oracle2 fuel =
      some (.error (.transactionInProgress "Won't set key while in a transaction"), []) := by
  constructor
  · unfold apply_encryption
    rw [h1, if_pos rfl]
  · unfold apply_key
    rw [h2, if_pos rfl]

/-- Witness for C4 on concrete in-transaction handles. -/
theorem C4_transaction_guard_witness :
    apply_encryption ⟨true⟩ [("key", .str "k")] (fun _ => .echo "ok") =
      (.error (.transactionInProgress "Won't update encryption while in a transaction"), []) ∧
    apply_key ⟨true⟩ (.str "k") (fun _ => .echo "ok") 5 =
      some (.error (.transactionInProgress "Won't set key while in a transaction"), []) :=
  C4_transaction_guard ⟨true⟩ ⟨true⟩ [("key", .str "k")] (.str "k")
    (fun _ => .echo "ok") (fun _ => .echo "ok") 5 rfl rfl

/-- C8: the generator is driven purely by the seeded pseudo-random
stream: two runs over equal streams agree element-for-element, and the
first `n` permutations do not depend on how much further the run is
observed (prefix stability of the lazy sequence). -/
theorem C8_generator_deterministic (f g : Nat → Nat) (n m : Nat) (hfg : f = g) :
    permRun ⟨f, 0⟩ n = permRun ⟨g, 0⟩ n ∧
    (permRun ⟨f, 0⟩ (n + m)).take n = permRun ⟨f, 0⟩ n := by
  subst hfg
  exact ⟨rfl, permRun_take n _ m⟩

/-- Witness for C8 with the identity stream. -/
theorem C8_generator_deterministic_witness :
    permRun ⟨fun k => k, 0⟩ 2 = permRun ⟨fun k => k, 0⟩ 2 ∧
    (permRun ⟨fun k => k, 0⟩ (2 + 3)).take 2 = permRun ⟨fun k => k, 0⟩ 2 :=
  C8_generator_deterministic (fun k => k) (fun k => k) 2 3 rfl

/-- C2: `pragma_order` assigns ranks from the lower-cased name exactly as
specified (cipher 1, exact "legacy" 2, contains "legacy" 3, other non-key
3, key directive 100); on a successful run the engine-call trace starts
with the rank-stably-sorted options, and strictly smaller rank is applied
strictly earlier — so cipher, legacy, a "legacy"-containing option and
the key directive are applied in exactly that relative order whatever the
input order. -/
theorem C2_rank_and_order :
    (∀ (n : String) (v : Value), lowerStr n = "cipher" → pragma_order (n, v) = 1) ∧
    (∀ (n : String) (v : Value), lowerStr n = "legacy" → pragma_order (n, v) = 2) ∧
    (∀ (n : String) (v : Value), containsLegacy (lowerStr n) = true →
      lowerStr n ≠ "legacy" → pragma_order (n, v) = 3) ∧
    (∀ (n : String) (v : Value), lowerStr n ≠ "cipher" →
      containsLegacy (lowerStr n) = false → isKeyName (lowerStr n) = false →
      pragma_order (n, v) = 3) ∧
    (∀ (n : String) (v : Value), isKeyName (lowerStr n) = true →
      pragma_order (n, v) = 100) ∧
    (∀ (db : Handle) (kwargs : List (String × Value)) (oracle : Nat → Reply),
      db.in_transaction = false → keyCount kwargs = 1 →
      (∀ k, k < (sortedOptions kwargs).length →
        oracle k = .echo (expectedEcho ((sortedOptions kwargs).getD k dfltPV))) →
      ((apply_encryption db kwargs oracle).2.take kwargs.length =
        (sortedOptions kwargs).map toCall) ∧
      (∀ i j, i < kwargs.length → j < kwargs.length →
        pragma_order ((sortedOptions kwargs).getD i dfltPV) <
          pragma_order ((sortedOptions kwargs).getD j dfltPV) → i < j)) := by
  refine ⟨fun n v h => pragma_order_of_cipher n v h,
          fun n v h => pragma_order_of_legacy n v h,
          fun n v h1 h2 => pragma_order_of_contains n v h1 h2,
          fun n v h1 h2 h3 => pragma_order_of_other n v h1 h2 h3,
          fun n v h => pragma_order_of_key n v h, ?_⟩
  intro db kwargs oracle hdb hkc he
  constructor
  · obtain ⟨suffix, hsuf⟩ := apply_encryption_goodrun_trace db kwargs oracle hdb hkc he
    rw [hsuf]
    apply List.take_left'
    rw [List.length_map, length_sortedOptions]
  · intro i j hi hj hrank
    by_contra hcon
    push_neg at hcon
    have := sortedOptions_rank_mono kwargs j i hj hi hcon
    omega

/-- Witness for C2 on the configuration
`{hexkey, legacy, legacy_page_size, cipher}` with a well-behaved engine:
the trace prefix is the sorted option list, and position 0 (cipher, rank
1) precedes position 3 (hexkey, rank 100). -/
theorem C2_rank_and_order_witness :
    ((apply_encryption ⟨false⟩
        [("hexkey", .str "aabbccddee"), ("legacy", .int 1),
         ("legacy_page_size", .int 8192), ("cipher", .str "aes128cbc")]
        (fun i => .echo (["aes128cbc", "1", "8192", "ok", "0", "0", "0"].getD i "0"))).2.take 4 =
      (sortedOptions
        [("hexkey", .str "aabbccddee"), ("legacy", .int 1),
         ("legacy_page_size", .int 8192), ("cipher", .str "aes128cbc")]).map toCall) ∧
    (0 : Nat) < 3 := by
  have h := C2_rank_and_order.2.2.2.2.2 ⟨false⟩
    [("hexkey", .str "aabbccddee"), ("legacy", .int 1),
     ("legacy_page_size", .int 8192), ("cipher", .str "aes128cbc")]
    (fun i => .echo (["aes128cbc", "1", "8192", "ok", "0", "0", "0"].getD i "0"))
    rfl (by decide) (by decide)
  exact ⟨h.1, h.2 0 3 (by decide) (by decide) (by decide)⟩

/-- C9 counterexample: with `kdf_iter` enumerated before
`legacy_page_size` (both rank 3) and a well-behaved engine,
`apply_encryption` applies `kdf_iter` first even though
`legacy_page_size` contains "legacy" and `kdf_iter` is a non-key option
that does not: the claimed input-order-independent ordering fails. -/
theorem C9_counterexample :
    containsLegacy (lowerStr "legacy_page_size") = true ∧
    containsLegacy (lowerStr "kdf_iter") = false ∧
    isKeyName (lowerStr "kdf_iter") = false ∧
    (apply_encryption ⟨false⟩
        [("kdf_iter", .int 99), ("legacy_page_size", .int 16384),
         ("hexkey", .str "aabbccddee")]
        (fun i => .echo (["99", "16384", "ok", "0", "0", "0"].getD i "0"))).2.map Prod.fst =
      ["kdf_iter", "legacy_page_size", "hexkey",
       "user_version", "user_version", "user_version"] :=
  ⟨by decide, by decide, by decide, by decide⟩

/-- C9 (amended): an option whose lower-cased name contains "legacy" is
applied before every non-key, non-cipher option without "legacy" that it
precedes in the input mapping; both sit at rank 3 (exact "legacy" at rank
2), so the stable sort keeps their input order rather than forcing
legacy-containing options first. -/
theorem C9_legacy_order_amended (kwargs : List (String × Value)) (x y : String × Value)
    (hx : containsLegacy (lowerStr x.1) = true)
    (hyk : isKeyName (lowerStr y.1) = false)
    (hyc : lowerStr y.1 ≠ "cipher")
    (hyl : containsLegacy (lowerStr y.1) = false)
    (hsub : [x, y].Sublist kwargs) :
    [x, y].Sublist (sortedOptions kwargs) ∧
    (∀ (db : Handle) (oracle : Nat → Reply), db.in_transaction = false →
      keyCount kwargs = 1 →
      (∀ k, k < (sortedOptions kwargs).length →
        oracle k = .echo (expectedEcho ((sortedOptions kwargs).getD k dfltPV))) →
      [toCall x, toCall y].Sublist (apply_encryption db kwargs oracle).2) := by
  have hy3 : pragma_order y = 3 := pragma_order_of_other y.1 y.2 hyc hyl hyk
  have hx3 : pragma_order x ≤ 3 := by
    by_cases hxl : lowerStr x.1 = "legacy"
    · have hh : pragma_order x = 2 := pragma_order_of_legacy x.1 x.2 hxl
      omega
    · have hh : pragma_order x = 3 := pragma_order_of_contains x.1 x.2 hx hxl
      omega
  have hle : ordLe x y = true := by
    simp only [ordLe, Nat.ble_eq]
    omega
  have hs : [x, y].Sublist (sortedOptions kwargs) :=
    pair_sublist_insertionSort ordLe x y hle kwargs hsub
  refine ⟨hs, ?_⟩
  intro db oracle hdb hkc he
  obtain ⟨suffix, hsuf⟩ := apply_encryption_goodrun_trace db kwargs oracle hdb hkc he
  rw [hsuf]
  have hmap : [toCall x, toCall y].Sublist ((sortedOptions kwargs).map toCall) := by
    simpa using hs.map toCall
  exact hmap.trans (List.sublist_append_left _ _)

/-- Witness for the amended C9: `legacy_page_size` enumerated before
`kdf_iter` stays before it in the sorted application order. -/
theorem C9_legacy_order_amended_witness :
    [(("legacy_page_size" : String), Value.int 16384),
     (("kdf_iter" : String), Value.int 99)].Sublist
      (sortedOptions [("legacy_page_size", .int 16384), ("kdf_iter", .int 99),
        ("hexkey", .str "aabbccddee")]) :=
  (C9_legacy_order_amended
    [("legacy_page_size", .int 16384), ("kdf_iter", .int 99), ("hexkey", .str "aabbccddee")]
    ("legacy_page_size", .int 16384) ("kdf_iter", .int 99)
    (by decide) (by decide) (by decide) (by decide)
    (List.Sublist.cons₂ _ (List.Sublist.cons₂ _ (List.nil_sublist _)))).1

/-- C10: the application order is a deterministic function of the input
mapping: equally-ranked options (in particular all rank-3 options) are
applied exactly in input enumeration order, because the sort is stable —
in the sorted list and in the engine-call trace of a successful run. -/
theorem C10_stable_ties (kwargs : List (String × Value)) (x y : String × Value)
    (hsub : [x, y].Sublist kwargs) (hrank : pragma_order x = pragma_order y) :
    [x, y].Sublist (sortedOptions kwargs) ∧
    (∀ (db : Handle) (oracle : Nat → Reply), db.in_transaction = false →
      keyCount kwargs = 1 →
      (∀ k, k < (sortedOptions kwargs).length →
        oracle k = .echo (expectedEcho ((sortedOptions kwargs).getD k dfltPV))) →
      [toCall x, toCall y].Sublist (apply_encryption db kwargs oracle).2) := by
  have hle : ordLe x y = true := by
    simp [ordLe, Nat.ble_eq, hrank]
  have hs : [x, y].Sublist (sortedOptions kwargs) :=
    pair_sublist_insertionSort ordLe x y hle kwargs hsub
  refine ⟨hs, ?_⟩
  intro db oracle hdb hkc he
  obtain ⟨suffix, hsuf⟩ := apply_encryption_goodrun_trace db kwargs oracle hdb hkc he
  rw [hsuf]
  have hmap : [toCall x, toCall y].Sublist ((sortedOptions kwargs).map toCall) := by
    simpa using hs.map toCall
  exact hmap.trans (List.sublist_append_left _ _)

/-- Witness for C10: two rank-3 options keep their input order. -/
theorem C10_stable_ties_witness :
    [(("kdf_iter" : String), Value.int 73),
     (("plaintext_header_size" : String), Value.int 64)].Sublist
      (sortedOptions [("kdf_iter", .int 73), ("plaintext_header_size", .int 64),
        ("key", .str "two")]) :=
  (C10_stable_ties
    [("kdf_iter", .int 73), ("plaintext_header_size", .int 64), ("key", .str "two")]
    ("kdf_iter", .int 73) ("plaintext_header_size", .int 64)
    (List.Sublist.cons₂ _ (List.Sublist.cons₂ _ (List.nil_sublist _)))
    (by decide)).1

/-- C3: the expected echo is "ok" for the key directive (rank 100) and
`str(value)` for every other option; the first option whose echo differs
fails the call with `ConfigurationFailedError` naming that pragma, and
the trace stops there — no later-sorted option nor the canary runs. -/
theorem C3_echo_mismatch :
    (∀ pv : String × Value, pragma_order pv = 100 → expectedEcho pv = "ok") ∧
    (∀ pv : String × Value, pragma_order pv ≠ 100 → expectedEcho pv = pv.2.toStr) ∧
    (∀ (db : Handle) (kwargs : List (String × Value)) (oracle : Nat → Reply)
      (l₁ l₂ : List (String × Value)) (p : String) (v : Value) (s : String),
      db.in_transaction = false → keyCount kwargs = 1 →
      sortedOptions kwargs = l₁ ++ (p, v) :: l₂ →
      (∀ k, k < l₁.length → oracle k = .echo (expectedEcho (l₁.getD k dfltPV))) →
      oracle l₁.length = .echo s → s ≠ expectedEcho (p, v) →
      apply_encryption db kwargs oracle =
        (.error (.configurationFailed p), l₁.map toCall ++ [(p, some v)])) := by
  refine ⟨?_, ?_, ?_⟩
  · intro pv h
    simp [expectedEcho, h]
  · intro pv h
    simp [expectedEcho, h]
  · intro db kwargs oracle l₁ l₂ p v s hdb hkc hsort hpre hmis hs
    unfold apply_encryption
    rw [hdb]
    rw [if_neg (by simp), if_neg (by simp [hkc]), hsort]
    rw [applyOpts_fail_at oracle p v l₂ s hs l₁ 0
      (by
        intro k hk
        rw [Nat.zero_add]
        exact hpre k hk)
      (by rw [Nat.zero_add]; exact hmis)]

/-- Witness for C3: `legacy = 7` echoes "1", so the call fails naming
`legacy` after applying only `cipher`. -/
theorem C3_echo_mismatch_witness :
    apply_encryption ⟨false⟩
      [("hexkey", .str "aabbccddee"), ("legacy_page_size", .int 32768),
       ("legacy", .int 7), ("cipher", .str "aes128cbc")]
      (fun i => .echo (["aes128cbc", "1"].getD i "x")) =
      (.error (.configurationFailed "legacy"),
        [("cipher", some (.str "aes128cbc")), ("legacy", some (.int 7))]) :=
  C3_echo_mismatch.2.2 ⟨false⟩
    [("hexkey", .str "aabbccddee"), ("legacy_page_size", .int 32768),
     ("legacy", .int 7), ("cipher", .str "aes128cbc")]
    (fun i => .echo (["aes128cbc", "1"].getD i "x"))
    [("cipher", .str "aes128cbc")]
    [("legacy_page_size", .int 32768), ("hexkey", .str "aabbccddee")]
    "legacy" (.int 7) "1"
    rfl (by decide) (by decide) (by decide) (by decide) (by decide)

/-- C6: after all options echo as expected, a not-a-database failure of
the canary read propagates (the spec's `WrongKeyError`), while a
read-only failure of the transactional canary re-apply — at either of its
two calls — is swallowed and the call still succeeds. -/
theorem C6_canary (db : Handle) (kwargs : List (String × Value)) (oracle : Nat → Reply)
    (hdb : db.in_transaction = false) (hkc : keyCount kwargs = 1)
    (he : ∀ k, k < (sortedOptions kwargs).length →
      oracle k = .echo (expectedEcho ((sortedOptions kwargs).getD k dfltPV))) :
    (oracle (sortedOptions kwargs).length = .err .notADB →
      apply_encryption db kwargs oracle =
        (.error (.engine .notADB),
          (sortedOptions kwargs).map toCall ++ [("user_version", none)])) ∧
    (∀ u, oracle (sortedOptions kwargs).length = .echo u →
      oracle ((sortedOptions kwargs).length + 1) = .err .readOnly →
      apply_encryption db kwargs oracle =
        (.ok (), (sortedOptions kwargs).map toCall ++
          [("user_version", none), ("user_version", none)])) ∧
    (∀ u v, oracle (sortedOptions kwargs).length = .echo u →
      oracle ((sortedOptions kwargs).length + 1) = .echo v →
      oracle ((sortedOptions kwargs).length + 2) = .err .readOnly →
      apply_encryption db kwargs oracle =
        (.ok (), (sortedOptions kwargs).map toCall ++
          [("user_version", none), ("user_version", none),
           ("user_version", some (.str v))])) := by
  have hm := apply_encryption_after_opts db kwargs oracle hdb hkc he
  refine ⟨?_, ?_, ?_⟩
  · intro h1
    rw [hm, h1]
  · intro u h1 h2
    rw [hm, h1, h2]
  · intro u v h1 h2 h3
    rw [hm, h1, h2, h3]

/-- Witness for C6: the canary read reports not-a-database and the error
propagates with the full option trace plus the canary read. -/
theorem C6_canary_witness :
    apply_encryption ⟨false⟩
      [("hexkey", .str "aabbccddee"), ("legacy", .int 1),
       ("legacy_page_size", .int 8192), ("cipher", .str "aes128cbc")]
      (fun i => if i < 4 then .echo (["aes128cbc", "1", "8192", "ok"].getD i "0")
        else .err .notADB) =
      (.error (.engine .notADB),
        (sortedOptions
          [("hexkey", .str "aabbccddee"), ("legacy", .int 1),
           ("legacy_page_size", .int 8192), ("cipher", .str "aes128cbc")]).map toCall ++
        [("user_version", none)]) :=
  (C6_canary ⟨false⟩
    [("hexkey", .str "aabbccddee"), ("legacy", .int 1),
     ("legacy_page_size", .int 8192), ("cipher", .str "aes128cbc")]
    (fun i => if i < 4 then .echo (["aes128cbc", "1", "8192", "ok"].getD i "0")
      else .err .notADB)
    rfl (by decide) (by decide)).1 (by decide)

/-- Unfolding of `apply_key` outside a transaction once the key pragma
has replied with an echo. -/
theorem apply_key_step (db : Handle) (key : Value) (oracle : Nat → Reply) (fuel : Nat)
    (s : String) (hdb : db.in_transaction = false) (h : oracle 0 = .echo s) :
    apply_key db key oracle fuel =
      if s ≠ "ok" then
        some (.error (.unsupported "SQLite library does not implement encryption"),
          [("key", some key)])
      else (apply_key_loop oracle fuel 1).map (fun r => (r.1, ("key", some key) :: r.2)) := by
  unfold apply_key
  rw [hdb, if_neg (by simp), h]

/-- One fuelled iteration of the retry loop whose canary read echoes. -/
theorem apply_key_loop_succ_echo (oracle : Nat → Reply) (fuel i : Nat) (v : String)
    (h : oracle i = .echo v) :
    apply_key_loop oracle (fuel + 1) i =
      match oracle (i + 1) with
      | .err .busy =>
        (apply_key_loop oracle fuel (i + 2)).map
          (fun r => (r.1, ("user_version", none) :: ("user_version", some (.str v)) :: r.2))
      | .err .notADB =>
        some (.ok false, [("user_version", none), ("user_version", some (.str v))])
      | .err e =>
        some (.error (.engine e), [("user_version", none), ("user_version", some (.str v))])
      | .echo _ =>
        some (.ok true, [("user_version", none), ("user_version", some (.str v))]) := by
  rw [apply_key_loop, h]

/-- One fuelled iteration of the retry loop whose canary read reports
not-a-database. -/
theorem apply_key_loop_succ_notADB (oracle : Nat → Reply) (fuel i : Nat)
    (h : oracle i = .err .notADB) :
    apply_key_loop oracle (fuel + 1) i = some (.ok false, [("user_version", none)]) := by
  rw [apply_key_loop, h]

/-- C5: `apply_key` outside a transaction fails with `UnsupportedError`
when the key pragma does not echo "ok"; otherwise its canary
read-modify-write runs in a retry loop that never returns while the
engine keeps reporting busy, returns `false` when the engine reports
not-a-database (wrong key, not an error), and returns `true` on any
other successful completion. -/
theorem C5_apply_key_behavior (key : Value) (oracle : Nat → Reply) :
    (∀ s, oracle 0 = .echo s → s ≠ "ok" → ∀ fuel,
      apply_key ⟨false⟩ key oracle fuel =
        some (.error (.unsupported "SQLite library does not implement encryption"),
          [("key", some key)])) ∧
    (oracle 0 = .echo "ok" →
      ((∀ j, 1 ≤ j → oracle j = .err .busy) → ∀ fuel,
        apply_key ⟨false⟩ key oracle fuel = none) ∧
      (oracle 1 = .err .notADB → ∀ fuel,
        apply_key ⟨false⟩ key oracle (fuel + 1) =
          some (.ok false, [("key", some key), ("user_version", none)])) ∧
      (∀ v w, oracle 1 = .echo v → oracle 2 = .echo w → ∀ fuel,
        apply_key ⟨false⟩ key oracle (fuel + 1) =
          some (.ok true,
            [("key", some key), ("user_version", none),
             ("user_version", some (.str v))]))) := by
  constructor
  · intro s h0 hs fuel
    rw [apply_key_step ⟨false⟩ key oracle fuel s rfl h0, if_pos hs]
  · intro h0
    refine ⟨?_, ?_, ?_⟩
    · intro hbusy fuel
      rw [apply_key_step ⟨false⟩ key oracle fuel "ok" rfl h0, if_neg (by simp),
        apply_key_loop_busy oracle fuel 1 hbusy]
      rfl
    · intro h1 fuel
      rw [apply_key_step ⟨false⟩ key oracle (fuel + 1) "ok" rfl h0, if_neg (by simp),
        apply_key_loop_succ_notADB oracle fuel 1 h1]
      rfl
    · intro v w h1 h2 fuel
      have h2' : oracle (1 + 1) = .echo w := h2
      rw [apply_key_step ⟨false⟩ key oracle (fuel + 1) "ok" rfl h0, if_neg (by simp),
        apply_key_loop_succ_echo oracle fuel 1 v h1, h2']
      rfl

/-- Witness for C5: a non-"ok" echo raises the unsupported error; with
"ok" followed by not-a-database the call returns `false`; with a fully
successful canary it returns `true`. -/
theorem C5_apply_key_behavior_witness :
    apply_key ⟨false⟩ (.str "hello world") (fun _ => .echo "nope") 3 =
      some (.error (.unsupported "SQLite library does not implement encryption"),
        [("key", some (.str "hello world"))]) ∧
    apply_key ⟨false⟩ (.str "hello world")
        (fun i => if i == 0 then .echo "ok" else .err .notADB) 3 =
      some (.ok false, [("key", some (.str "hello world")), ("user_version", none)]) ∧
    apply_key ⟨false⟩ (.str "hello world") (fun _ => .echo "ok") 3 =
      some (.ok true,
        [("key", some (.str "hello world")), ("user_version", none),
         ("user_version", some (.str "ok"))]) :=
  ⟨(C5_apply_key_behavior (.str "hello world") (fun _ => .echo "nope")).1
      "nope" rfl (by decide) 3,
   ((C5_apply_key_behavior (.str "hello world")
      (fun i => if i == 0 then .echo "ok" else .err .notADB)).2 rfl).2.1 rfl 2,
   (((C5_apply_key_behavior (.str "hello world") (fun _ => .echo "ok")).2 rfl).2.2
      "ok" "ok" rfl rfl 2)⟩

/-- C7: every emitted permutation pairs the chosen cipher with "good"
parameters drawn inside their declared domain for that cipher and "bad"
parameters absent from that cipher's parameter table carrying the
placeholder 0; between 0 and 3 parameters are drawn. -/
theorem C7_generator_domains (r : RNG) :
    (∀ pr, pr ∈ (genPerm r).1.good →
      ∃ d, lookupD (cipherParams (genPerm r).1.cipher) pr.1 = some d ∧
        inDomainB pr.2 d = true) ∧
    (∀ pr, pr ∈ (genPerm r).1.bad →
      lookupD (cipherParams (genPerm r).1.cipher) pr.1 = none ∧ pr.2 = 0) ∧
    (genPerm r).1.good.length + (genPerm r).1.bad.length ≤ 3 := by
  obtain ⟨h1, h2, h3⟩ := genParams_spec (chooseFrom cipherNames "" r).1
    ((chooseFrom cipherNames "" r).2.next.1 % 4) (chooseFrom cipherNames "" r).2.next.2
  have hmod : (chooseFrom cipherNames "" r).2.next.1 % 4 < 4 :=
    Nat.mod_lt _ (by decide)
  have hg : (genPerm r).1.good =
      (genParams (chooseFrom cipherNames "" r).1
        ((chooseFrom cipherNames "" r).2.next.1 % 4)
        (chooseFrom cipherNames "" r).2.next.2).1 := rfl
  have hb : (genPerm r).1.bad =
      (genParams (chooseFrom cipherNames "" r).1
        ((chooseFrom cipherNames "" r).2.next.1 % 4)
        (chooseFrom cipherNames "" r).2.next.2).2.1 := rfl
  refine ⟨h1, h2, ?_⟩
  rw [hg, hb]
  omega

/-- Witness for C7 on the identity stream: the draw is the inapplicable
parameter `hmac_pgno`, recorded as a bad pair. -/
theorem C7_generator_domains_witness :
    lookupD (cipherParams (genPerm ⟨fun k => k, 0⟩).1.cipher) "hmac_pgno" = none ∧
    (genPerm ⟨fun k => k, 0⟩).1.good.length +
      (genPerm ⟨fun k => k, 0⟩).1.bad.length ≤ 3 :=
  ⟨((C7_generator_domains ⟨fun k => k, 0⟩).2.1 ("hmac_pgno", 0) (by decide)).1,
   (C7_generator_domains ⟨fun k => k, 0⟩).2.2⟩
